import Mathlib

/-!
Verification of the Monte Carlo promo-ticket survival simulator found in
`sim.py` and `slot_promo_sim.py`.  All numeric code is embedded over exact
rationals (ℚ); the hidden global random generator is modelled as an explicit
stream of outcome multipliers `ℕ → ℚ`, consumed one draw per spin.
-/

namespace PromoSim

/-- Hard-coded payout multipliers of `get_spin_outcome`
(`sim.py` line 44, `slot_promo_sim.py` line 26):
`payouts = np.array([0, 0.2, 1, 3, 10, 50])`. -/
def base_payouts : List ℚ := [0, 0.2, 1, 3, 10, 50]

/-- Hard-coded weights of `get_spin_outcome`
(`sim.py` line 45, `slot_promo_sim.py` line 27):
`weights = np.array([0.75, 0.12, 0.08, 0.04, 0.009, 0.001])`. -/
def base_weights : List ℚ := [0.75, 0.12, 0.08, 0.04, 0.009, 0.001]

/-- `sim.py` line 46: `weights = weights / weights.sum()`. -/
def normalized_weights : List ℚ := base_weights.map (fun w => w / base_weights.sum)

/-- Elementwise product then sum, the embedding of `np.sum(payouts * weights)`. -/
def dotSum (ps ws : List ℚ) : ℚ := (List.zipWith (· * ·) ps ws).sum

/-- `sim.py` line 47: `current_rtp = np.sum(payouts * weights)` (after the
normalization of line 46). -/
def current_rtp : ℚ := dotSum base_payouts normalized_weights

/-- `sim.py` line 48: `scale = rtp / current_rtp`. -/
def scale (rtp : ℚ) : ℚ := rtp / current_rtp

/-- `sim.py` line 49: `payouts = payouts * scale`. -/
def calibrated_payouts (rtp : ℚ) : List ℚ := base_payouts.map (fun p => p * scale rtp)

/-- The base expected value of the hard-coded table is `0.364 = 91/250`. -/
theorem current_rtp_eq : current_rtp = 91 / 250 := by
  norm_num [current_rtp, dotSum, base_payouts, normalized_weights, base_weights]

/-- C1: for every `target_rtp > 0`, the payout table produced by
`get_spin_outcome`'s scaling step has expected value under the base weights
exactly equal to `target_rtp` (so in particular within tolerance `1e-9`). -/
theorem calibrated_rtp_exact (rtp : ℚ) (h : 0 < rtp) :
    dotSum (calibrated_payouts rtp) base_weights = rtp := by
  have hc : current_rtp = 91 / 250 := current_rtp_eq
  simp only [dotSum, calibrated_payouts, base_payouts, base_weights, scale, hc]
  norm_num
  ring

/-- Witness for C1 at the default `target_rtp = 0.96`. -/
theorem calibrated_rtp_exact_witness :
    (0 : ℚ) < 0.96 ∧ dotSum (calibrated_payouts 0.96) base_weights = 0.96 :=
  ⟨by norm_num, calibrated_rtp_exact 0.96 (by norm_num)⟩

/-! ### The trial loop

`sim.py` lines 57-68:
```
balance = promo_ticket_face_value
total_wagered = 0
while balance >= bet_size and total_wagered < required_wager:
    outcome = get_spin_outcome(rtp) * bet_size
    balance = balance - bet_size + outcome
    total_wagered += bet_size
if total_wagered >= required_wager and balance > 0:
    survival_count += 1
    total_redeemed.append(balance)
else:
    total_redeemed.append(0)
```
The random draw `get_spin_outcome(rtp)` is modelled as reading the next value
of an outcome-multiplier stream `outcomes : ℕ → ℚ`; `spins` counts the draws
made so far in the trial and indexes the stream. -/

/-- Local state of one trial: the running balance, the cumulative wager, and
the number of spins played so far. -/
structure TrialState where
  balance : ℚ
  total_wagered : ℚ
  spins : ℕ
  deriving DecidableEq, Repr

/-- One spin body (`sim.py` lines 61-63, `slot_promo_sim.py` lines 49-51):
`balance = balance - bet_size + outcome_multiplier * bet_size;
total_wagered += bet_size`, where `m` is the drawn outcome multiplier. -/
def spinUpdate (bet m : ℚ) (s : TrialState) : TrialState :=
  { balance := s.balance - bet + m * bet
    total_wagered := s.total_wagered + bet
    spins := s.spins + 1 }

/-- The `while balance >= bet_size and total_wagered < required_wager` loop of
`sim.py` line 60, run with an explicit fuel bound; `none` means the fuel ran
out while the loop condition still held (the Python loop would keep running). -/
def runSpins (bet req : ℚ) (outcomes : ℕ → ℚ) : ℕ → TrialState → Option TrialState
  | 0, s => if bet ≤ s.balance ∧ s.total_wagered < req then none else some s
  | fuel + 1, s =>
    if bet ≤ s.balance ∧ s.total_wagered < req then
      runSpins bet req outcomes fuel (spinUpdate bet (outcomes s.spins) s)
    else some s

/-- The trial classification of `sim.py` lines 64-68: the pair
`(survived, value appended to total_redeemed)`. -/
def classify (req : ℚ) (s : TrialState) : Bool × ℚ :=
  if req ≤ s.total_wagered ∧ 0 < s.balance then (true, s.balance) else (false, 0)

/-- One whole trial of `sim.py` lines 57-68: start from
`balance = face_value`, `total_wagered = 0`, run the spin loop, classify. -/
def runTrial (face bet mult : ℚ) (outcomes : ℕ → ℚ) (fuel : ℕ) :
    Option (Bool × ℚ) :=
  (runSpins bet (face * mult) outcomes fuel ⟨face, 0, 0⟩).map (classify (face * mult))

/-- The capped `for spin in range(max_spins)` loop of `slot_promo_sim.py`
lines 46-51, recursing on the number of remaining loop indices:
```
for spin in range(max_spins):
    if balance < bet_size:
        break
    outcome = get_spin_outcome(rtp, stdev) * bet_size
    balance = balance - bet_size + outcome
    total_wagered += bet_size
```  -/
def runSpinsFor (bet : ℚ) (outcomes : ℕ → ℚ) : ℕ → TrialState → TrialState
  | 0, s => s
  | n + 1, s =>
    if s.balance < bet then s
    else runSpinsFor bet outcomes n (spinUpdate bet (outcomes s.spins) s)

/-- `slot_promo_sim.py` line 38: `max_spins = int(required_wager // bet_size)`. -/
def max_spins (bet req : ℚ) : ℕ := (⌊req / bet⌋).toNat

/-- C2: any trial the loop completes is classified so that `survived = true`
comes with a strictly positive recorded balance and `survived = false` (which
includes `total_wagered ≥ required_wager` with `balance ≤ 0`) records
exactly `0`. -/
theorem trial_survival_balance (face bet mult : ℚ) (outcomes : ℕ → ℚ) (fuel : ℕ)
    (o : Bool × ℚ) (h : runTrial face bet mult outcomes fuel = some o) :
    (o.1 = true → 0 < o.2) ∧ (o.1 = false → o.2 = 0) := by
  rcases Option.map_eq_some'.mp h with ⟨s, _, rfl⟩
  unfold classify
  split
  · next hc => exact ⟨fun _ => hc.2, by simp⟩
  · simp

/-- Witness for C2: `face = 1, bet = 1, mult = 1`, all outcomes `0`: the
single spin busts the ticket and the trial records `(false, 0)`. -/
theorem trial_survival_balance_witness :
    runTrial 1 1 1 (fun _ => 0) 2 = some (false, 0) ∧
      ((false, (0 : ℚ)).1 = true → 0 < ((false, (0 : ℚ))).2) ∧
      ((false, (0 : ℚ)).1 = false → ((false, (0 : ℚ))).2 = 0) :=
  ⟨by simp [runTrial, runSpins, spinUpdate, classify],
    trial_survival_balance 1 1 1 (fun _ => 0) 2 (false, 0)
      (by simp [runTrial, runSpins, spinUpdate, classify])⟩

/-! ### Termination and spin-count bounds for the while loop -/

/-- Number of loop iterations still possible from cumulative wager `w`:
each iteration adds `bet` to the wager and the loop requires `wager < req`,
so at most `⌈(req - w) / bet⌉` iterations remain. -/
def spinsNeeded (bet req w : ℚ) : ℕ := (⌈(req - w) / bet⌉).toNat

theorem spinsNeeded_step (bet req w : ℚ) (hbet : 0 < bet) (hw : w < req) :
    spinsNeeded bet req w = spinsNeeded bet req (w + bet) + 1 := by
  have hdiv : (req - w) / bet = (req - (w + bet)) / bet + 1 := by
    field_simp
    ring
  have hpos : 0 < ⌈(req - w) / bet⌉ := by
    rw [Int.ceil_pos]
    exact div_pos (by linarith) hbet
  have hceil : ⌈(req - w) / bet⌉ = ⌈(req - (w + bet)) / bet⌉ + 1 := by
    rw [hdiv, Int.ceil_add_one]
  unfold spinsNeeded
  omega

theorem spinsNeeded_zero (bet req w : ℚ) (hbet : 0 < bet)
    (h : spinsNeeded bet req w = 0) : ¬ w < req := by
  intro hlt
  have hpos : 0 < ⌈(req - w) / bet⌉ := by
    rw [Int.ceil_pos]
    exact div_pos (by linarith) hbet
  unfold spinsNeeded at h
  omega

/-- With positive `bet`, the while loop of `sim.py` line 60 always exits by
its own condition, within `spinsNeeded` further iterations. -/
theorem runSpins_total (bet req : ℚ) (outcomes : ℕ → ℚ) (hbet : 0 < bet) :
    ∀ (fuel : ℕ) (s : TrialState), spinsNeeded bet req s.total_wagered ≤ fuel →
      ∃ t, runSpins bet req outcomes fuel s = some t ∧
        t.spins ≤ s.spins + spinsNeeded bet req s.total_wagered := by
  intro fuel
  induction fuel with
  | zero =>
    intro s h
    have h0 : spinsNeeded bet req s.total_wagered = 0 := Nat.le_zero.mp h
    have hcond : ¬ (bet ≤ s.balance ∧ s.total_wagered < req) := by
      rintro ⟨-, hlt⟩
      exact spinsNeeded_zero bet req s.total_wagered hbet h0 hlt
    refine ⟨s, ?_, by omega⟩
    simp [runSpins, hcond]
  | succ fuel ih =>
    intro s h
    by_cases hcond : bet ≤ s.balance ∧ s.total_wagered < req
    · have hstep := spinsNeeded_step bet req s.total_wagered hbet hcond.2
      set s' := spinUpdate bet (outcomes s.spins) s with hs'
      have hw' : s'.total_wagered = s.total_wagered + bet := rfl
      have hsp : s'.spins = s.spins + 1 := rfl
      have hfuel' : spinsNeeded bet req s'.total_wagered ≤ fuel := by
        rw [hw']
        omega
      obtain ⟨t, ht, htb⟩ := ih s' hfuel'
      refine ⟨t, ?_, ?_⟩
      · simpa [runSpins, hcond] using ht
      · rw [hw'] at htb
        omega
    · refine ⟨s, ?_, by omega⟩
      simp [runSpins, hcond]

/-- The capped for loop of `slot_promo_sim.py` plays at most as many spins as
its range allows. -/
theorem runSpinsFor_spins_le (bet : ℚ) (outcomes : ℕ → ℚ) :
    ∀ (n : ℕ) (s : TrialState),
      (runSpinsFor bet outcomes n s).spins ≤ s.spins + n := by
  intro n
  induction n with
  | zero => intro s; simp [runSpinsFor]
  | succ n ih =>
    intro s
    by_cases hb : s.balance < bet
    · simp [runSpinsFor, hb]
    · have := ih (spinUpdate bet (outcomes s.spins) s)
      have hsp : (spinUpdate bet (outcomes s.spins) s).spins = s.spins + 1 := rfl
      simp only [runSpinsFor, if_neg hb]
      omega

/-- C3 (counterexample): with `face_value = 5`, `bet_size = 3`,
`wagering_multiplier = 1` (all within the claim's preconditions) and every
outcome a push, the `sim.py` while loop plays `2` spins although
`required_wager // bet_size = 1`. -/
theorem spin_bound_counterexample :
    runSpins 3 (5 * 1) (fun _ => 1) 10 ⟨5, 0, 0⟩ = some ⟨5, 6, 2⟩ ∧
      max_spins 3 (5 * 1) = 1 ∧ ¬ (2 ≤ 1) := by
  refine ⟨?_, ?_, by omega⟩
  · norm_num [runSpins, spinUpdate]
  · norm_num [max_spins]

/-- C3 (amended): for `face_value > 0`, `bet_size > 0`,
`wagering_multiplier ≥ 1`, the spin loop terminates and the number of spins
played never exceeds `⌈required_wager / bet_size⌉` (the floor bound
`required_wager // bet_size` can be exceeded by one when `bet_size` does not
divide `required_wager`); the capped loop of `slot_promo_sim.py` never
exceeds its `max_spins` range. -/
theorem spin_loop_terminates_bounded (face bet mult : ℚ) (outcomes : ℕ → ℚ)
    (fuel : ℕ) (hface : 0 < face) (hbet : 0 < bet) (hmult : 1 ≤ mult)
    (hfuel : spinsNeeded bet (face * mult) 0 ≤ fuel) :
    (∃ t, runSpins bet (face * mult) outcomes fuel ⟨face, 0, 0⟩ = some t ∧
        t.spins ≤ (⌈face * mult / bet⌉).toNat) ∧
      ∀ s : TrialState,
        (runSpinsFor bet outcomes (max_spins bet (face * mult)) s).spins
          ≤ s.spins + max_spins bet (face * mult) := by
  constructor
  · obtain ⟨t, ht, htb⟩ :=
      runSpins_total bet (face * mult) outcomes hbet fuel ⟨face, 0, 0⟩ hfuel
    refine ⟨t, ht, ?_⟩
    simpa [spinsNeeded] using htb
  · intro s
    exact runSpinsFor_spins_le bet outcomes (max_spins bet (face * mult)) s

/-- Witness for the amended C3 at `face = 5, bet = 3, mult = 1, fuel = 10`. -/
theorem spin_loop_terminates_bounded_witness :
    (∃ t, runSpins 3 ((5 : ℚ) * 1) (fun _ => 1) 10 ⟨5, 0, 0⟩ = some t ∧
        t.spins ≤ (⌈(5 : ℚ) * 1 / 3⌉).toNat) ∧
      ∀ s : TrialState,
        (runSpinsFor 3 (fun _ => 1) (max_spins 3 ((5 : ℚ) * 1)) s).spins
          ≤ s.spins + max_spins 3 ((5 : ℚ) * 1) := by
  have hfuel : spinsNeeded 3 ((5 : ℚ) * 1) 0 ≤ 10 := by
    unfold spinsNeeded
    rw [show ((5 : ℚ) * 1 - 0) / 3 = 5 / 3 by norm_num]
    rw [show ⌈(5 : ℚ) / 3⌉ = 2 by rw [Int.ceil_eq_iff] <;> norm_num]
    norm_num
  exact spin_loop_terminates_bounded 5 3 1 (fun _ => 1) 10 (by norm_num) (by norm_num)
    (le_refl 1) hfuel

/-! ### Degenerate parameters: `bet_size = 0` -/

/-- C4: the source has no parameter guard and defines no
`InvalidTrialParameters`.  With `bet_size = 0`, each iteration of the spin
loop leaves `balance` and `total_wagered` unchanged
(`balance - 0 + m * 0 = balance`, `total_wagered + 0 = total_wagered`), so
whenever `0 ≤ balance` and `total_wagered < required_wager` the loop never
exits: it exhausts every fuel bound (`none`), instead of raising before the
first iteration. -/
theorem bet_zero_never_terminates (req : ℚ) (outcomes : ℕ → ℚ) (fuel : ℕ)
    (s : TrialState) (hbal : 0 ≤ s.balance) (hreq : s.total_wagered < req) :
    runSpins 0 req outcomes fuel s = none := by
  induction fuel generalizing s with
  | zero =>
    simp only [runSpins, if_pos (And.intro hbal hreq)]
  | succ fuel ih =>
    have hbal' : 0 ≤ (spinUpdate 0 (outcomes s.spins) s).balance := by
      simp only [spinUpdate]
      ring_nf
      exact hbal
    have hreq' : (spinUpdate 0 (outcomes s.spins) s).total_wagered < req := by
      simp only [spinUpdate]
      linarith
    simp only [runSpins, if_pos (And.intro hbal hreq)]
    exact ih _ hbal' hreq'

/-- Witness for C4: `face_value = 5`, `bet_size = 0`,
`required_wager = 5 * 1`: after 7 fueled iterations the loop is still
running — no exception, no termination. -/
theorem bet_zero_never_terminates_witness :
    runSpins 0 (5 * 1) (fun _ => 2) 7 ⟨5, 0, 0⟩ = none :=
  bet_zero_never_terminates (5 * 1) (fun _ => 2) 7 ⟨5, 0, 0⟩ (by norm_num) (by norm_num)

/-! ### The per-spin balance update -/

/-- C6: in every active spin the loop body debits exactly `bet_size` and
credits exactly `outcome_multiplier * bet_size` in the same step
(`balance' = balance - bet + m * bet`), so a push (`m = 1`) leaves the
balance unchanged. -/
theorem spin_debit_credit_same_step (bet req m : ℚ) (outcomes : ℕ → ℚ)
    (fuel : ℕ) (s : TrialState)
    (hactive : bet ≤ s.balance ∧ s.total_wagered < req) :
    runSpins bet req outcomes (fuel + 1) s
        = runSpins bet req outcomes fuel (spinUpdate bet (outcomes s.spins) s) ∧
      (spinUpdate bet m s).balance = s.balance - bet + m * bet ∧
      (m = 1 → (spinUpdate bet m s).balance = s.balance) := by
  refine ⟨by simp [runSpins, hactive], rfl, ?_⟩
  rintro rfl
  simp [spinUpdate]

/-- Witness for C6 at `bet = 2`, `m = 1`, state `(5, 3, 4)`, `req = 100`. -/
theorem spin_debit_credit_same_step_witness :
    (runSpins 2 100 (fun _ => 1) 1 ⟨5, 3, 4⟩
        = runSpins 2 100 (fun _ => 1) 0 (spinUpdate 2 ((fun _ => (1 : ℚ)) 4) ⟨5, 3, 4⟩)) ∧
      (spinUpdate 2 1 ⟨5, 3, 4⟩).balance = 5 - 2 + 1 * 2 ∧
      ((1 : ℚ) = 1 → (spinUpdate 2 1 ⟨5, 3, 4⟩).balance = 5) :=
  spin_debit_credit_same_step 2 100 1 (fun _ => 1) 0 ⟨5, 3, 4⟩ ⟨by norm_num, by norm_num⟩

/-! ### Absence of distribution validation in `get_spin_outcome` -/

/-- C7 (counterexample): at `target_rtp = -1 ≤ 0`, `get_spin_outcome`'s
construction raises nothing and produces a calibrated payout table (with
negative entries), contradicting the claim that `InvalidDistribution` is
raised and no table is produced. -/
theorem no_invalid_distribution_counterexample :
    (-1 : ℚ) ≤ 0 ∧
      calibrated_payouts (-1)
        = [0, -50 / 91, -250 / 91, -750 / 91, -2500 / 91, -12500 / 91] := by
  constructor
  · norm_num
  · norm_num [calibrated_payouts, base_payouts, scale, current_rtp_eq]

/-- C7 (amended): the source performs no validation and defines no
`InvalidDistribution`: the payout/weight table is hard-coded (every weight
is non-negative and the weights sum exactly to 1), and the calibration is
applied unconditionally — for every `target_rtp ≤ 0` it still produces a
full 6-entry table, all of whose entries are `≤ 0`, rather than failing. -/
theorem no_distribution_validation (rtp : ℚ) (h : rtp ≤ 0) :
    (∀ w ∈ base_weights, 0 ≤ w) ∧ base_weights.sum = 1 ∧
      (calibrated_payouts rtp).length = 6 ∧
      ∀ p ∈ calibrated_payouts rtp, p ≤ 0 := by
  have hscale : scale rtp ≤ 0 := by
    rw [scale, current_rtp_eq]
    apply div_nonpos_of_nonpos_of_nonneg h
    norm_num
  refine ⟨?_, ?_, rfl, ?_⟩
  · intro w hw
    simp only [base_weights, List.mem_cons, List.not_mem_nil, or_false] at hw
    rcases hw with rfl | rfl | rfl | rfl | rfl | rfl <;> norm_num
  · norm_num [base_weights]
  · intro p hp
    simp only [calibrated_payouts, base_payouts, List.map_cons, List.map_nil,
      List.mem_cons, List.not_mem_nil, or_false] at hp
    rcases hp with rfl | rfl | rfl | rfl | rfl | rfl <;> nlinarith [hscale]

/-- Witness for the amended C7 at `target_rtp = -2`. -/
theorem no_distribution_validation_witness :
    (∀ w ∈ base_weights, 0 ≤ w) ∧ base_weights.sum = 1 ∧
      (calibrated_payouts (-2)).length = 6 ∧
      ∀ p ∈ calibrated_payouts (-2), p ≤ 0 :=
  no_distribution_validation (-2) (by norm_num)

/-! ### The batch loop of `sim.py` lines 52-73

```
survival_count = 0
total_redeemed = []
for sim in range(int(num_sims)):
    ... one trial ...
    if total_wagered >= required_wager and balance > 0:
        survival_count += 1
        total_redeemed.append(balance)
    else:
        total_redeemed.append(0)
survival_rate = survival_count / num_sims
avg_redeemed = np.mean(total_redeemed)
```
All trials draw from the single global generator, modelled as one stream
`stream : ℕ → ℚ` consumed sequentially: trial `i` starts reading at the
position `pos` reached by the previous trials. -/

/-- Runs `n` remaining trials starting at stream position `pos`, collecting
each trial's `(survived, appended value)` record; `none` if some trial's
fuel ran out. -/
def runBatchAux (face bet mult : ℚ) (stream : ℕ → ℚ) (fuel : ℕ) :
    ℕ → ℕ → Option (List (Bool × ℚ))
  | 0, _ => some []
  | n + 1, pos =>
    match runSpins bet (face * mult) (fun k => stream (pos + k)) fuel ⟨face, 0, 0⟩ with
    | none => none
    | some s =>
      match runBatchAux face bet mult stream fuel n (pos + s.spins) with
      | none => none
      | some rest => some (classify (face * mult) s :: rest)

/-- The aggregate report of `sim.py` lines 72-73. -/
structure BatchSummary where
  survival_rate : ℚ
  average_redeemed : ℚ
  deriving DecidableEq, Repr

/-- `survival_rate = survival_count / num_sims`,
`avg_redeemed = np.mean(total_redeemed)` (`sim.py` lines 72-73). -/
def summarize (num : ℕ) (records : List (Bool × ℚ)) : BatchSummary :=
  { survival_rate := (records.countP Prod.fst : ℚ) / num
    average_redeemed := (records.map Prod.snd).sum / num }

/-- One whole batch run of `sim.py` lines 52-73. -/
def runBatch (face bet mult : ℚ) (num : ℕ) (stream : ℕ → ℚ) (fuel : ℕ) :
    Option BatchSummary :=
  (runBatchAux face bet mult stream fuel num 0).map (summarize num)

/-- Modelled from the spec (definition under test for C5, following the
spec's words, to be compared with `summarize`): the arithmetic mean of
`final_balance` over ALL trials, a non-surviving trial contributing 0. -/
def meanOverAllTrials (num : ℕ) (records : List (Bool × ℚ)) : ℚ :=
  (records.map (fun r => if r.1 then r.2 else 0)).sum / num

theorem classify_false_snd_zero (req : ℚ) (s : TrialState)
    (h : (classify req s).1 = false) : (classify req s).2 = 0 := by
  by_cases hc : req ≤ s.total_wagered ∧ 0 < s.balance
  · simp [classify, hc] at h
  · simp [classify, hc]

/-- Every record collected by the batch loop is a `classify` result, so a
non-surviving record carries the appended value `0`; and the loop produces
exactly one record per trial. -/
theorem runBatchAux_records (face bet mult : ℚ) (stream : ℕ → ℚ) (fuel : ℕ) :
    ∀ (n pos : ℕ) (records : List (Bool × ℚ)),
      runBatchAux face bet mult stream fuel n pos = some records →
        records.length = n ∧ ∀ r ∈ records, r.1 = false → r.2 = 0 := by
  intro n
  induction n with
  | zero =>
    intro pos records h
    simp only [runBatchAux, Option.some.injEq] at h
    subst h
    simp
  | succ n ih =>
    intro pos records h
    simp only [runBatchAux] at h
    rcases hs : runSpins bet (face * mult) (fun k => stream (pos + k)) fuel ⟨face, 0, 0⟩ with
      - | s
    · rw [hs] at h
      simp at h
    · rw [hs] at h
      dsimp only at h
      rcases hr : runBatchAux face bet mult stream fuel n (pos + s.spins) with - | rest
      · rw [hr] at h
        simp at h
      · rw [hr] at h
        dsimp only at h
        simp only [Option.some.injEq] at h
        subst h
        obtain ⟨hlen, hall⟩ := ih (pos + s.spins) rest hr
        refine ⟨by simp [hlen], ?_⟩
        intro r hr'
        rcases List.mem_cons.mp hr' with rfl | hmem
        · exact classify_false_snd_zero (face * mult) s
        · exact hall r hmem

theorem sum_snd_eq_sum_ite (records : List (Bool × ℚ)) :
    (∀ r ∈ records, r.1 = false → r.2 = 0) →
      (records.map Prod.snd).sum
        = (records.map (fun r => if r.1 then r.2 else 0)).sum := by
  induction records with
  | nil => intro _; rfl
  | cons r rest ihr =>
    intro hall
    have hr : r.1 = false → r.2 = 0 := hall r (List.mem_cons_self r rest)
    have hrest : ∀ x ∈ rest, x.1 = false → x.2 = 0 :=
      fun x hx => hall x (List.mem_cons_of_mem r hx)
    simp only [List.map_cons, List.sum_cons, ihr hrest]
    cases hb : r.1 with
    | false => rw [hr hb]; simp
    | true => simp [hb]

/-- C5: the reported `average_redeemed` is the arithmetic mean of the
recorded final balances over ALL `num_trials` trials — the record list has
one entry per trial, non-surviving trials contribute exactly `0`, and the
divisor is the full trial count, not the survivor count. -/
theorem average_redeemed_is_mean_over_all (face bet mult : ℚ) (num : ℕ)
    (stream : ℕ → ℚ) (fuel : ℕ) (records : List (Bool × ℚ))
    (hnum : 0 < num)
    (h : runBatchAux face bet mult stream fuel num 0 = some records) :
    records.length = num ∧
      (summarize num records).average_redeemed = meanOverAllTrials num records := by
  obtain ⟨hlen, hall⟩ := runBatchAux_records face bet mult stream fuel num 0 records h
  refine ⟨hlen, ?_⟩
  simp only [summarize, meanOverAllTrials, sum_snd_eq_sum_ite records hall]

/-- Witness for C5: two trials, every outcome 0 — both bust, both recorded
as 0, and the reported average is the mean over both trials. -/
theorem average_redeemed_is_mean_over_all_witness :
    ([((false : Bool), (0 : ℚ)), (false, 0)].length = 2) ∧
      (summarize 2 [((false : Bool), (0 : ℚ)), (false, 0)]).average_redeemed
        = meanOverAllTrials 2 [((false : Bool), (0 : ℚ)), (false, 0)] := by
  have h : runBatchAux 1 1 1 (fun _ => 0) 2 2 0
      = some [((false : Bool), (0 : ℚ)), (false, 0)] := by
    simp [runBatchAux, runSpins, spinUpdate, classify]
  exact average_redeemed_is_mean_over_all 1 1 1 2 (fun _ => 0) 2
    [((false : Bool), (0 : ℚ)), (false, 0)] (by norm_num) h

/-- C8: single-threaded determinism — two batch runs with identical
parameters whose random sources yield the same draw at every position
produce identical `BatchSummary` results. -/
theorem batch_deterministic (face bet mult : ℚ) (num : ℕ) (fuel : ℕ)
    (stream1 stream2 : ℕ → ℚ) (h : ∀ n, stream1 n = stream2 n) :
    runBatch face bet mult num stream1 fuel = runBatch face bet mult num stream2 fuel := by
  have : stream1 = stream2 := funext h
  rw [this]

/-- Witness for C8: two textually distinct but extensionally equal streams
give bit-for-bit equal summaries. -/
theorem batch_deterministic_witness :
    runBatch 5 1 2 3 (fun n => (n : ℚ) + 1) 20
      = runBatch 5 1 2 3 (fun n => 1 + (n : ℚ)) 20 :=
  batch_deterministic 5 1 2 3 20 (fun n => (n : ℚ) + 1) (fun n => 1 + (n : ℚ))
    (fun n => add_comm (n : ℚ) 1)

/-! ### Calibration touches only payouts -/

/-- C9: the RTP calibration scales payouts only.  The single operation the
source ever applies to the weights (`sim.py` line 46's division by their
sum; `slot_promo_sim.py` applies none) leaves them identical to the supplied
`base_weights`, because those sum exactly to 1 — so the weights handed to
`np.random.choice` are the supplied base weights, unchanged. -/
theorem sampling_weights_unchanged :
    base_weights.sum = 1 ∧ normalized_weights = base_weights := by
  constructor
  · norm_num [base_weights]
  · norm_num [normalized_weights, base_weights]

/-! ### Equivalence of the two trial-loop variants -/

/-- When the cumulative wager sits exactly `j` bets short of the
requirement, the uncapped while loop of `sim.py` (given fuel `≥ j`) and the
counted for loop of `slot_promo_sim.py` run the very same spins from the
same state. -/
theorem runSpins_eq_runSpinsFor (bet req : ℚ) (outcomes : ℕ → ℚ) (hbet : 0 < bet) :
    ∀ (j fuel : ℕ) (s : TrialState), j ≤ fuel →
      s.total_wagered = req - j * bet →
      runSpins bet req outcomes fuel s = some (runSpinsFor bet outcomes j s) := by
  intro j
  induction j with
  | zero =>
    intro fuel s _ hw
    have hweq : s.total_wagered = req := by
      rw [hw]
      ring
    have hcond : ¬ (bet ≤ s.balance ∧ s.total_wagered < req) := by
      rintro ⟨-, hlt⟩
      rw [hweq] at hlt
      exact lt_irrefl req hlt
    cases fuel with
    | zero => simp [runSpins, runSpinsFor, hcond]
    | succ f => simp [runSpins, runSpinsFor, hcond]
  | succ j ih =>
    intro fuel s hfuel hw
    obtain ⟨f, rfl⟩ : ∃ f, fuel = f + 1 := ⟨fuel - 1, by omega⟩
    have hlt : s.total_wagered < req := by
      rw [hw]
      have : (0 : ℚ) < (j + 1 : ℕ) * bet := by
        apply mul_pos _ hbet
        exact_mod_cast Nat.succ_pos j
      linarith
    by_cases hb : s.balance < bet
    · have hcond : ¬ (bet ≤ s.balance ∧ s.total_wagered < req) := by
        rintro ⟨hle, -⟩
        exact absurd hb (not_lt.mpr hle)
      simp [runSpins, runSpinsFor, hcond, hb]
    · have hcond : bet ≤ s.balance ∧ s.total_wagered < req := ⟨not_lt.mp hb, hlt⟩
      have hw' : (spinUpdate bet (outcomes s.spins) s).total_wagered = req - j * bet := by
        show s.total_wagered + bet = req - j * bet
        rw [hw]
        push_cast
        ring
      have := ih f (spinUpdate bet (outcomes s.spins) s) (by omega) hw'
      simp only [runSpins, runSpinsFor, if_pos hcond, if_neg hb]
      exact this

/-- C10: when `bet_size` evenly divides `required_wager = face_value *
wagering_multiplier` (`required_wager = k * bet_size`), `slot_promo_sim.py`'s
cap is `max_spins = k`, and from the same initial state and outcome stream
the uncapped while-loop trial of `sim.py` reaches exactly the final state of
the `max_spins`-capped for-loop trial — same spins, same final balance, and
hence the identical survival classification. -/
theorem while_for_equivalent (face bet mult : ℚ) (outcomes : ℕ → ℚ) (k fuel : ℕ)
    (hface : 0 < face) (hbet : 0 < bet) (hmult : 1 ≤ mult)
    (hdiv : face * mult = k * bet) (hfuel : k ≤ fuel) :
    max_spins bet (face * mult) = k ∧
      runSpins bet (face * mult) outcomes fuel ⟨face, 0, 0⟩
        = some (runSpinsFor bet outcomes k ⟨face, 0, 0⟩) ∧
      (runSpins bet (face * mult) outcomes fuel ⟨face, 0, 0⟩).map
          (classify (face * mult))
        = some (classify (face * mult) (runSpinsFor bet outcomes k ⟨face, 0, 0⟩)) := by
  have hrun : runSpins bet (face * mult) outcomes fuel ⟨face, 0, 0⟩
      = some (runSpinsFor bet outcomes k ⟨face, 0, 0⟩) := by
    apply runSpins_eq_runSpinsFor bet (face * mult) outcomes hbet k fuel ⟨face, 0, 0⟩ hfuel
    show (0 : ℚ) = face * mult - k * bet
    rw [hdiv]
    ring
  refine ⟨?_, hrun, by rw [hrun]; rfl⟩
  rw [max_spins, hdiv]
  rw [mul_div_assoc, div_self (ne_of_gt hbet), mul_one]
  rw [Int.floor_natCast]
  exact Int.toNat_natCast k

/-- Witness for C10: `face = 4, bet = 2, mult = 1, k = 2, fuel = 3`, every
outcome a push. -/
theorem while_for_equivalent_witness :
    max_spins 2 ((4 : ℚ) * 1) = 2 ∧
      runSpins 2 ((4 : ℚ) * 1) (fun _ => 1) 3 ⟨4, 0, 0⟩
        = some (runSpinsFor 2 (fun _ => 1) 2 ⟨4, 0, 0⟩) ∧
      (runSpins 2 ((4 : ℚ) * 1) (fun _ => 1) 3 ⟨4, 0, 0⟩).map
          (classify ((4 : ℚ) * 1))
        = some (classify ((4 : ℚ) * 1) (runSpinsFor 2 (fun _ => 1) 2 ⟨4, 0, 0⟩)) :=
  while_for_equivalent 4 2 1 (fun _ => 1) 2 3 (by norm_num) (by norm_num)
    (le_refl 1) (by norm_num) (by norm_num)

end PromoSim
